import Mathlib

/-!
Verification of the shipping-method exclusion pipeline in
`saleor/plugins/webhook/shipping.py`.

The Python functions are shallowly embedded as pure Lean functions.
External collaborators (the global-id codec, the webhook transport,
the cache store, the webhook registry) are passed in as function
parameters; webhook invocations and cache writes performed by a call
are returned as explicit logs so that side-effect claims can be stated.
-/

namespace Saleor

/-- An app registered in the system; only its primary key is used here. -/
structure App where
  pk : Nat
deriving DecidableEq, Repr

/-- A webhook subscription: an association of an app with an event
subscription (the pipeline only reads `webhook.app`). -/
structure Webhook where
  app : App
deriving DecidableEq, Repr

/-- The dataclass `ExcludedShippingMethod` from `base_plugin`: an id plus an optional
reason (`None` or a string in Python). -/
structure ExcludedShippingMethod where
  id : String
  reason : Option String
deriving DecidableEq, Repr

/-- A raw exclusion dict `{"id": ..., "reason": ...}` as produced by
`get_excluded_shipping_methods_from_response` (reason always a string). -/
structure RawExclusion where
  id : String
  reason : String
deriving DecidableEq, Repr

/-- One untrusted entry of the `excluded_methods` list of a webhook response:
`method_data["id"]` raises when the field is missing (modelled by
`none`), `method_data.get("reason", "")` defaults to the empty string. -/
structure MethodData where
  id : Option String
  reason : Option String
deriving DecidableEq, Repr

/-- A webhook response body; `response_data.get("excluded_methods", [])`
defaults a missing key to the empty list, so the body is just the list. -/
structure ExclusionResponse where
  excluded_methods : List MethodData
deriving DecidableEq, Repr

/-- The external global-id codec `graphene.Node.from_global_id`:
decodes a token into `(typename, id)`; `none` models the
`ValueError`/`TypeError` raised on an undecodable token. -/
abbrev Codec := String → Option (String × String)

/-- The external transport `trigger_webhook_sync event_type payload app
timeout`; `none` models a falsy/absent response. -/
abbrev Trigger := String → String → App → Nat → Option ExclusionResponse

/-- The external cache store read: `cache.get key` yields the stored
`(payload, raw results)` pair, or `none` on a miss. -/
abbrev CacheGet := String → Option (String × List RawExclusion)

/-- The Python `defaultdict(list)` keyed by method id, with insertion
order preserved, modelled as an ordered association list. -/
abbrev GroupedMap := List (String × List ExcludedShippingMethod)

/-- One outbound webhook call made by the fetcher, with its arguments. -/
structure Invocation where
  event_type : String
  payload : String
  app : App
  req_timeout : Nat
deriving DecidableEq, Repr

/-- One `cache.set key (payload, raw_results) ttl` performed by a call. -/
structure CacheWrite where
  key : String
  payload : String
  raw_results : List RawExclusion
  ttl : Nat
deriving DecidableEq, Repr

/-- Modelled from the spec: the fixed request timeout constant
`EXCLUDED_SHIPPING_REQUEST_TIMEOUT` from `const.py` (not part of the
reviewed slice; only its identity matters, not its value). -/
def EXCLUDED_SHIPPING_REQUEST_TIMEOUT : Nat := 2

/-- Modelled from the spec: the fixed cache TTL constant
`CACHE_EXCLUDED_SHIPPING_TIME` from `const.py` (not part of the
reviewed slice; only its identity matters, not its value). -/
def CACHE_EXCLUDED_SHIPPING_TIME : Nat := 180

/-- Modelled from the spec: the app-scoped id tag `APP_ID_PREFIX` from
`utils.py`; the spec writes app-scoped ids as `app:<app pk>:<id>`. -/
def APP_ID_PREFIX : String := "app"

/-- The standard base64 alphabet. -/
def b64Alphabet : List Char :=
  "ABCDEFGHIJKLMNOPQRSTUVWXYZabcdefghijklmnopqrstuvwxyz0123456789+/".toList

/-- The base64 digit for a 6-bit value. -/
def b64Char (n : Nat) : Char := b64Alphabet.getD n 'A'

/-- Standard base64 of a byte list (values < 256), with `=` padding,
as produced by `base64.b64encode` in Python. -/
def b64EncodeBytes : List Nat → List Char
  | [] => []
  | [a] => [b64Char (a / 4), b64Char (a % 4 * 16), '=', '=']
  | [a, b] => [b64Char (a / 4), b64Char (a % 4 * 16 + b / 16), b64Char (b % 16 * 4), '=']
  | a :: b :: c :: rest =>
      b64Char (a / 4) :: b64Char (a % 4 * 16 + b / 16) ::
        b64Char (b % 16 * 4 + c / 64) :: b64Char (c % 64) :: b64EncodeBytes rest

/-- The UTF-8 encoding of one character as byte values, written with
truncating division and remainder so that the kernel can evaluate it
(equal to the shift-and-mask form used by `String.toUTF8`). -/
def utf8Bytes (c : Char) : List Nat :=
  let v := c.toNat
  if v ≤ 0x7f then [v]
  else if v ≤ 0x7ff then [0xc0 + v / 64, 0x80 + v % 64]
  else if v ≤ 0xffff then [0xe0 + v / 4096, 0x80 + v / 64 % 64, 0x80 + v % 64]
  else [0xf0 + v / 262144, 0x80 + v / 4096 % 64, 0x80 + v / 64 % 64, 0x80 + v % 64]

/-- The UTF-8 bytes of a string (`str.encode` in Python). -/
def strBytes (s : String) : List Nat :=
  s.toList.flatMap utf8Bytes

/-- Python `base64.b64encode(str.encode(s)).decode("utf-8")`: base64 of the
UTF-8 bytes of `s`. -/
def b64encode (s : String) : String :=
  String.mk (b64EncodeBytes (strBytes s))

/-- The function `to_shipping_app_id`: base64-encode `app:<app pk>:<shipping method id>`. -/
def to_shipping_app_id (app : App) (shipping_method_id : String) : String :=
  b64encode ( APP_ID_PREFIX ++ ":" ++ toString app.pk ++ ":" ++ shipping_method_id)

/-- An f-string interpolation in Python applied to an optional string:
`None` formats as the literal string `None`. -/
def pyStr : Option String → String
  | none => "None"
  | some s => s

/-- The body of the loop of `get_excluded_shipping_methods_from_response`
for one entry (`ResponseParser.parse` in the spec): `none` models the
dropped entry (`continue`), whether from the caught
`KeyError`/`ValueError`/`TypeError` or from an unknown typename. -/
def parse_exclusion_entry (fgi : Codec) (method_data : MethodData) :
    Option RawExclusion :=
  match method_data.id with
  | none => none
  | some raw_id =>
    match fgi raw_id with
    | none => none
    | some (typename, decoded_id) =>
      if typename = "app" then
        some ⟨raw_id, method_data.reason.getD ""⟩
      else if typename = "ShippingMethod" then
        some ⟨decoded_id, method_data.reason.getD ""⟩
      else
        none

/-- The function `get_excluded_shipping_methods_from_response`: parse
every entry of
`excluded_methods`, dropping malformed ones and keeping input order. -/
def get_excluded_shipping_methods_from_response (fgi : Codec)
    (response_data : ExclusionResponse) : List RawExclusion :=
  response_data.excluded_methods.filterMap (parse_exclusion_entry fgi)

/-- Python `excluded_methods_map[k].append(v)` on an ordered
`defaultdict(list)`:
append to the first bucket with key `k`, or create a new bucket at the
end when `k` is absent. -/
def insertGrouped (m : GroupedMap) (k : String) (v : ExcludedShippingMethod) :
    GroupedMap :=
  match m with
  | [] => [(k, [v])]
  | (k2, bucket) :: rest =>
      if k2 = k then (k2, bucket ++ [v]) :: rest
      else (k2, bucket) :: insertGrouped rest k v

/-- The function `parse_excluded_shipping_methods`: group a raw
exclusion list by id
into `ExcludedShippingMethod` values (reason kept as a string). -/
def parse_excluded_shipping_methods (excluded_methods : List RawExclusion) :
    GroupedMap :=
  excluded_methods.foldl (fun m e => insertGrouped m e.id ⟨e.id, some e.reason⟩) []

/-- Python truthiness of `m.reason`: `None` and the empty string are falsy. -/
def truthyReason (r : Option String) : Bool :=
  match r with
  | none => false
  | some s => !s.isEmpty

/-- The reason computation of `get_excluded_shipping_data` for one bucket:
`" ".join` of the truthy reasons, or `None` when there are none. -/
def joinReasons (methods : List ExcludedShippingMethod) : Option String :=
  let reasons := methods.filterMap
    (fun m => if truthyReason m.reason then m.reason else none)
  match reasons with
  | [] => none
  | _ :: _ => some (String.intercalate " " reasons)

/-- The `for method in previous_value` loop of
`get_excluded_shipping_data`: append every previous entry into the
bucket of its id in the fetched map. -/
def appendPrevious (m : GroupedMap)
    (previous_value : List ExcludedShippingMethod) : GroupedMap :=
  previous_value.foldl (fun acc method => insertGrouped acc method.id method) m

/-- The merging tail of `get_excluded_shipping_data` (`ExclusionMerger`
in the spec): append every previous entry into the bucket of its id,
then emit one entry per bucket with the joined reason. -/
def merge_exclusions (excluded_methods_map : GroupedMap)
    (previous_value : List ExcludedShippingMethod) :
    List ExcludedShippingMethod :=
  (appendPrevious excluded_methods_map previous_value).map
    (fun kv => ⟨kv.1, joinReasons kv.2⟩)

/-- The result of one `get_excluded_shipping_methods_or_fetch` call: the
returned map plus the logs of the webhook calls and cache writes it made. -/
structure FetchOut where
  result : GroupedMap
  invocations : List Invocation
  writes : List CacheWrite
deriving Repr

/-- The webhook fan-out loop of `get_excluded_shipping_methods_or_fetch`:
call each webhook in order; a present response contributes its parsed
entries, a falsy one contributes nothing; every call is logged. -/
def webhook_loop (fgi : Codec) (trigger : Trigger)
    (event_type payload : String) (webhooks : List Webhook) :
    List Invocation × List RawExclusion :=
  webhooks.foldl
    (fun st webhook =>
      let inv : Invocation :=
        ⟨event_type, payload, webhook.app, EXCLUDED_SHIPPING_REQUEST_TIMEOUT⟩
      match trigger event_type payload webhook.app
          EXCLUDED_SHIPPING_REQUEST_TIMEOUT with
      | some response_data =>
          (st.1 ++ [inv],
           st.2 ++ get_excluded_shipping_methods_from_response fgi response_data)
      | none => (st.1 ++ [inv], st.2))
    ([], [])

/-- The fall-through path of `get_excluded_shipping_methods_or_fetch`
(cache miss or stale payload): fan out, write the cache, return the
grouped results. -/
def fetch_from_webhooks (fgi : Codec) (trigger : Trigger)
    (webhooks : List Webhook) (event_type payload cache_key : String) :
    FetchOut :=
  let st := webhook_loop fgi trigger event_type payload webhooks
  ⟨parse_excluded_shipping_methods st.2, st.1,
   [⟨cache_key, payload, st.2, CACHE_EXCLUDED_SHIPPING_TIME⟩]⟩

/-- The function `get_excluded_shipping_methods_or_fetch`: on a cache
hit whose stored
payload equals the fresh one, reuse the stored raw results; otherwise
fan out to the webhooks and overwrite the cache entry. -/
def get_excluded_shipping_methods_or_fetch (fgi : Codec) (trigger : Trigger)
    (cache_get : CacheGet) (webhooks : List Webhook)
    (event_type payload cache_key : String) : FetchOut :=
  match cache_get cache_key with
  | some (cached_payload, excluded_shipping_methods) =>
      if payload = cached_payload then
        ⟨parse_excluded_shipping_methods excluded_shipping_methods, [], []⟩
      else
        fetch_from_webhooks fgi trigger webhooks event_type payload cache_key
  | none =>
      fetch_from_webhooks fgi trigger webhooks event_type payload cache_key

/-- The result of one `get_excluded_shipping_data` call: the final list
plus the effect logs and whether `payload_fun` was evaluated. -/
structure DataOut where
  result : List ExcludedShippingMethod
  invocations : List Invocation
  writes : List CacheWrite
  payload_evaluated : Bool
deriving Repr

/-- The function `get_excluded_shipping_data`: ask the registry for the
webhooks of
the event; when none, skip the payload and the fetch entirely; merge the
fetched map with `previous_value`. -/
def get_excluded_shipping_data (fgi : Codec) (trigger : Trigger)
    (cache_get : CacheGet) (registry : String → List Webhook)
    (event_type : String) (previous_value : List ExcludedShippingMethod)
    (payload_fun : Unit → String) (cache_key : String) : DataOut :=
  let webhooks := registry event_type
  if webhooks.isEmpty then
    ⟨merge_exclusions [] previous_value, [], [], false⟩
  else
    let payload := payload_fun ()
    let fo := get_excluded_shipping_methods_or_fetch fgi trigger cache_get
      webhooks event_type payload cache_key
    ⟨merge_exclusions fo.result previous_value, fo.invocations, fo.writes, true⟩

/-- The class `Money` from the external `prices` library: a decimal amount and a
currency (no validation of the currency). -/
structure Money where
  amount : Rat
  currency : Option String
deriving DecidableEq, Repr

/-- Modelled from the spec: `ShippingMethodData` from
`shipping/interface.py` is outside the reviewed slice; a plain record of
the four fields this module sets, with no runtime validation. -/
structure ShippingMethodData where
  id : String
  name : Option String
  price : Money
  maximum_delivery_days : Option String
deriving DecidableEq, Repr

/-- One untrusted entry of a `list_shipping_methods` response; every
field is read with `.get`, so a missing field is `none`, not an error. -/
structure ShippingMethodRecord where
  id : Option String
  name : Option String
  amount : Option String
  currency : Option String
  maximum_delivery_days : Option String
deriving DecidableEq, Repr

/-- Modelled from the spec: `Money(amount, currency)` from the external
`prices` library runs `Decimal(amount)`, which raises on a missing
(`None`) or undecodable amount; `dec` abstracts the `Decimal`
constructor. -/
def mkMoney (dec : String → Option Rat) (amount : Option String)
    (currency : Option String) : Except Unit Money :=
  match amount with
  | none => Except.error ()
  | some a =>
    match dec a with
    | none => Except.error ()
    | some q => Except.ok ⟨q, currency⟩

/-- The function `parse_list_shipping_methods_response`: one
`ShippingMethodData` per
record, in order, with no defensive handling — the first raising `Money`
construction aborts the whole batch. -/
def parse_list_shipping_methods_response (dec : String → Option Rat)
    (response_data : List ShippingMethodRecord) (app : App) :
    Except Unit (List ShippingMethodData) :=
  match response_data with
  | [] => Except.ok []
  | r :: rest =>
    match mkMoney dec r.amount r.currency with
    | Except.error e => Except.error e
    | Except.ok price =>
      match parse_list_shipping_methods_response dec rest app with
      | Except.error e => Except.error e
      | Except.ok parsed =>
        Except.ok
          (⟨to_shipping_app_id app (pyStr r.id), r.name, price,
            r.maximum_delivery_days⟩ :: parsed)

/-- The key sequence of a grouped map, in insertion order. -/
def keysOf (m : GroupedMap) : List String :=
  m.map Prod.fst

/-- The bucket stored under `k` (first occurrence), or `[]` when absent. -/
def bucketOf (m : GroupedMap) (k : String) : List ExcludedShippingMethod :=
  match m with
  | [] => []
  | (k2, b) :: rest => if k2 = k then b else bucketOf rest k

/-- The keys of `l` not in `seen`, each kept at its first occurrence. -/
def firstKeys (seen : List String) : List String → List String
  | [] => []
  | k :: ks => if k ∈ seen then firstKeys seen ks else k :: firstKeys (k :: seen) ks

theorem keysOf_insertGrouped (m : GroupedMap) (k : String)
    (v : ExcludedShippingMethod) :
    keysOf (insertGrouped m k v) =
      if k ∈ keysOf m then keysOf m else keysOf m ++ [k] := by
  induction m with
  | nil => simp [insertGrouped, keysOf]
  | cons kv rest ih =>
    obtain ⟨k2, b⟩ := kv
    by_cases h : k2 = k
    · subst h
      simp [insertGrouped, keysOf]
    · simp only [insertGrouped, if_neg h, keysOf, List.map_cons, List.mem_cons]
      have hne : ¬k = k2 := fun hc => h hc.symm
      simp only [keysOf] at ih
      rw [ih]
      by_cases hk : k ∈ rest.map Prod.fst
      · simp [hk, hne]
      · simp [hk, hne]

theorem bucketOf_insertGrouped_self (m : GroupedMap) (k : String)
    (v : ExcludedShippingMethod) :
    bucketOf (insertGrouped m k v) k = bucketOf m k ++ [v] := by
  induction m with
  | nil => simp [insertGrouped, bucketOf]
  | cons kv rest ih =>
    obtain ⟨k2, b⟩ := kv
    by_cases h : k2 = k
    · subst h
      simp [insertGrouped, bucketOf]
    · simp [insertGrouped, bucketOf, h, ih]

theorem bucketOf_insertGrouped_ne (m : GroupedMap) (k k2 : String)
    (v : ExcludedShippingMethod) (h : k ≠ k2) :
    bucketOf (insertGrouped m k v) k2 = bucketOf m k2 := by
  induction m with
  | nil => simp [insertGrouped, bucketOf, h]
  | cons kv rest ih =>
    obtain ⟨k3, b⟩ := kv
    by_cases h3 : k3 = k
    · subst h3
      simp [insertGrouped, bucketOf, h]
    · simp [insertGrouped, bucketOf, h3, ih]

theorem bucketOf_appendPrevious (prev : List ExcludedShippingMethod)
    (m : GroupedMap) (k : String) :
    bucketOf (appendPrevious m prev) k =
      bucketOf m k ++ prev.filter (fun x => x.id = k) := by
  induction prev generalizing m with
  | nil => simp [appendPrevious]
  | cons x xs ih =>
    simp only [appendPrevious, List.foldl_cons] at ih ⊢
    rw [ih]
    by_cases h : x.id = k
    · rw [List.filter_cons_of_pos (by simpa using h), ← h,
        bucketOf_insertGrouped_self]
      simp [h]
    · rw [List.filter_cons_of_neg (by simpa using h),
        bucketOf_insertGrouped_ne _ _ _ _ h]

theorem firstKeys_congr (l : List String) (s1 s2 : List String)
    (h : ∀ a, a ∈ s1 ↔ a ∈ s2) : firstKeys s1 l = firstKeys s2 l := by
  induction l generalizing s1 s2 with
  | nil => rfl
  | cons k ks ih =>
    by_cases hk : k ∈ s1
    · simp only [firstKeys, if_pos hk, if_pos ((h k).1 hk)]
      exact ih s1 s2 h
    · have hk2 : k ∉ s2 := fun hc => hk ((h k).2 hc)
      simp only [firstKeys, if_neg hk, if_neg hk2]
      refine congrArg _ (ih _ _ ?_)
      intro a
      simp [List.mem_cons, h a]

theorem keysOf_appendPrevious (prev : List ExcludedShippingMethod)
    (m : GroupedMap) :
    keysOf (appendPrevious m prev) =
      keysOf m ++ firstKeys (keysOf m) (prev.map (fun x => x.id)) := by
  induction prev generalizing m with
  | nil => simp [appendPrevious, firstKeys]
  | cons x xs ih =>
    simp only [appendPrevious, List.foldl_cons] at ih ⊢
    rw [ih, keysOf_insertGrouped]
    by_cases h : x.id ∈ keysOf m
    · simp only [if_pos h, List.map_cons, firstKeys, if_pos h]
    · simp only [if_neg h, List.map_cons, firstKeys, if_neg h]
      rw [firstKeys_congr _ (keysOf m ++ [x.id]) (x.id :: keysOf m)
        (by intro a; simp [or_comm])]
      simp

theorem firstKeys_not_mem_seen (l seen : List String) (a : String)
    (ha : a ∈ firstKeys seen l) : a ∉ seen := by
  induction l generalizing seen with
  | nil => simp [firstKeys] at ha
  | cons k ks ih =>
    by_cases hk : k ∈ seen
    · exact ih _ (by simpa [firstKeys, hk] using ha)
    · simp only [firstKeys, if_neg hk, List.mem_cons] at ha
      rcases ha with rfl | ha
      · exact hk
      · have := ih _ ha
        intro hc
        exact this (List.mem_cons_of_mem _ hc)

theorem firstKeys_nodup (l seen : List String) : (firstKeys seen l).Nodup := by
  induction l generalizing seen with
  | nil => simp [firstKeys]
  | cons k ks ih =>
    by_cases hk : k ∈ seen
    · simpa [firstKeys, hk] using ih seen
    · simp only [firstKeys, if_neg hk, List.nodup_cons]
      refine ⟨fun hc => ?_, ih _⟩
      exact firstKeys_not_mem_seen _ _ _ hc (List.mem_cons_self _ _)

theorem nodup_keysOf_appendPrevious (prev : List ExcludedShippingMethod)
    (m : GroupedMap) (h : (keysOf m).Nodup) :
    (keysOf (appendPrevious m prev)).Nodup := by
  rw [keysOf_appendPrevious]
  rw [List.nodup_append]
  refine ⟨h, firstKeys_nodup _ _, ?_⟩
  intro a ha hc
  exact firstKeys_not_mem_seen _ _ _ hc ha

theorem bucketOf_of_mem_nodup (m : GroupedMap) (k : String)
    (b : List ExcludedShippingMethod) (hmem : (k, b) ∈ m)
    (h : (keysOf m).Nodup) : bucketOf m k = b := by
  induction m with
  | nil => simp at hmem
  | cons kv rest ih =>
    obtain ⟨k2, b2⟩ := kv
    simp only [keysOf, List.map_cons, List.nodup_cons] at h
    rcases List.mem_cons.1 hmem with heq | hmem2
    · have hk : k = k2 := congrArg Prod.fst heq
      have hb : b = b2 := congrArg Prod.snd heq
      subst hk
      subst hb
      simp [bucketOf]
    · have hne : k2 ≠ k := by
        intro hc
        subst hc
        exact h.1 (List.mem_map.2 ⟨(k2, b), hmem2, rfl⟩)
      simp only [bucketOf, if_neg hne]
      exact ih hmem2 h.2

/-- The grouped-by-id invariant: every entry sits in the bucket of its
own id. -/
def GroupedById (m : GroupedMap) : Prop :=
  ∀ kv ∈ m, ∀ e ∈ kv.2, ExcludedShippingMethod.id e = kv.1

theorem groupedById_insertGrouped (m : GroupedMap) (k : String)
    (v : ExcludedShippingMethod) (hm : GroupedById m) (hv : v.id = k) :
    GroupedById (insertGrouped m k v) := by
  induction m with
  | nil =>
    intro kv hkv e he
    simp only [insertGrouped, List.mem_singleton] at hkv
    subst hkv
    simp only [List.mem_singleton] at he
    subst he
    exact hv
  | cons kv2 rest ih =>
    obtain ⟨k2, b⟩ := kv2
    intro kv hkv e he
    by_cases h : k2 = k
    · simp only [insertGrouped, if_pos h] at hkv
      rcases List.mem_cons.1 hkv with heq | hkv2
      · subst heq
        simp only [List.mem_append, List.mem_singleton] at he
        rcases he with he2 | he2
        · exact hm (k2, b) (List.mem_cons_self _ _) e he2
        · subst he2
          exact hv.trans h.symm
      · exact hm kv (List.mem_cons_of_mem _ hkv2) e he
    · simp only [insertGrouped, if_neg h] at hkv
      rcases List.mem_cons.1 hkv with heq | hkv2
      · subst heq
        exact hm (k2, b) (List.mem_cons_self _ _) e he
      · exact ih (fun kv3 hkv3 => hm kv3 (List.mem_cons_of_mem _ hkv3)) kv hkv2 e he

theorem nodup_keysOf_insertGrouped (m : GroupedMap) (k : String)
    (v : ExcludedShippingMethod) (h : (keysOf m).Nodup) :
    (keysOf (insertGrouped m k v)).Nodup := by
  rw [keysOf_insertGrouped]
  by_cases hk : k ∈ keysOf m
  · simpa [hk] using h
  · simp only [if_neg hk]
    rw [List.nodup_append]
    exact ⟨h, List.nodup_singleton _, by simpa using fun hc => hk hc⟩

theorem parse_excluded_fold_invariant (raw : List RawExclusion)
    (m : GroupedMap) (hg : GroupedById m) (hn : (keysOf m).Nodup) :
    GroupedById
        (raw.foldl (fun m e => insertGrouped m e.id ⟨e.id, some e.reason⟩) m) ∧
      (keysOf
        (raw.foldl (fun m e => insertGrouped m e.id ⟨e.id, some e.reason⟩) m)).Nodup := by
  induction raw generalizing m with
  | nil => exact ⟨hg, hn⟩
  | cons e rest ih =>
    simp only [List.foldl_cons]
    exact ih _ (groupedById_insertGrouped _ _ _ hg rfl)
      (nodup_keysOf_insertGrouped _ _ _ hn)

theorem groupedById_parse_excluded (raw : List RawExclusion) :
    GroupedById (parse_excluded_shipping_methods raw) :=
  (parse_excluded_fold_invariant raw [] (by intro kv h; simp at h) (by simp [keysOf])).1

theorem nodup_keysOf_parse_excluded (raw : List RawExclusion) :
    (keysOf (parse_excluded_shipping_methods raw)).Nodup :=
  (parse_excluded_fold_invariant raw [] (by intro kv h; simp at h) (by simp [keysOf])).2

theorem webhook_loop_go (fgi : Codec) (trigger : Trigger)
    (event_type payload : String) (webhooks : List Webhook)
    (acc1 : List Invocation) (acc2 : List RawExclusion) :
    webhooks.foldl
      (fun st webhook =>
        let inv : Invocation :=
          ⟨event_type, payload, webhook.app, EXCLUDED_SHIPPING_REQUEST_TIMEOUT⟩
        match trigger event_type payload webhook.app
            EXCLUDED_SHIPPING_REQUEST_TIMEOUT with
        | some response_data =>
            (st.1 ++ [inv],
             st.2 ++ get_excluded_shipping_methods_from_response fgi response_data)
        | none => (st.1 ++ [inv], st.2))
      (acc1, acc2) =
    (acc1 ++ webhooks.map (fun w =>
        ⟨event_type, payload, w.app, EXCLUDED_SHIPPING_REQUEST_TIMEOUT⟩),
     acc2 ++ webhooks.flatMap (fun w =>
        match trigger event_type payload w.app
            EXCLUDED_SHIPPING_REQUEST_TIMEOUT with
        | some response_data =>
            get_excluded_shipping_methods_from_response fgi response_data
        | none => [])) := by
  induction webhooks generalizing acc1 acc2 with
  | nil => simp
  | cons w ws ih =>
    simp only [List.foldl_cons, List.map_cons, List.flatMap_cons]
    cases htr : trigger event_type payload w.app EXCLUDED_SHIPPING_REQUEST_TIMEOUT with
    | none => rw [ih]; simp
    | some rd => rw [ih]; simp

/-- The per-webhook contribution of the fan-out loop: the parsed entries
of a present response, nothing for a falsy one. -/
def webhook_contrib (fgi : Codec) (trigger : Trigger)
    (event_type payload : String) (w : Webhook) : List RawExclusion :=
  match trigger event_type payload w.app EXCLUDED_SHIPPING_REQUEST_TIMEOUT with
  | some response_data =>
      get_excluded_shipping_methods_from_response fgi response_data
  | none => []

theorem webhook_loop_eq (fgi : Codec) (trigger : Trigger)
    (event_type payload : String) (webhooks : List Webhook) :
    webhook_loop fgi trigger event_type payload webhooks =
      (webhooks.map (fun w =>
        ⟨event_type, payload, w.app, EXCLUDED_SHIPPING_REQUEST_TIMEOUT⟩),
       webhooks.flatMap (webhook_contrib fgi trigger event_type payload)) := by
  have h := webhook_loop_go fgi trigger event_type payload webhooks [] []
  simpa [webhook_loop, webhook_contrib] using h

theorem fetch_from_webhooks_eq (fgi : Codec) (trigger : Trigger)
    (webhooks : List Webhook) (event_type payload cache_key : String) :
    fetch_from_webhooks fgi trigger webhooks event_type payload cache_key =
      ⟨parse_excluded_shipping_methods
          (webhooks.flatMap (webhook_contrib fgi trigger event_type payload)),
       webhooks.map (fun w =>
          ⟨event_type, payload, w.app, EXCLUDED_SHIPPING_REQUEST_TIMEOUT⟩),
       [⟨cache_key, payload,
          webhooks.flatMap (webhook_contrib fgi trigger event_type payload),
          CACHE_EXCLUDED_SHIPPING_TIME⟩]⟩ := by
  rw [fetch_from_webhooks, webhook_loop_eq]

theorem fetch_eq_of_miss (fgi : Codec) (trigger : Trigger)
    (cache_get : CacheGet) (webhooks : List Webhook)
    (event_type payload cache_key : String)
    (hmiss : ∀ cached_payload raw,
      cache_get cache_key = some (cached_payload, raw) →
        payload ≠ cached_payload) :
    get_excluded_shipping_methods_or_fetch fgi trigger cache_get webhooks
        event_type payload cache_key =
      fetch_from_webhooks fgi trigger webhooks event_type payload cache_key := by
  unfold get_excluded_shipping_methods_or_fetch
  cases hc : cache_get cache_key with
  | none => rfl
  | some p =>
    obtain ⟨cached_payload, raw⟩ := p
    simp [if_neg (hmiss cached_payload raw hc)]

theorem flatMap_contrib_nil (fgi : Codec) (trigger : Trigger)
    (event_type payload : String) (ws : List Webhook)
    (h : ∀ w ∈ ws,
      trigger event_type payload w.app EXCLUDED_SHIPPING_REQUEST_TIMEOUT = none) :
    ws.flatMap (webhook_contrib fgi trigger event_type payload) = [] := by
  induction ws with
  | nil => rfl
  | cons w rest ih =>
    rw [List.flatMap_cons]
    rw [webhook_contrib, h w (List.mem_cons_self _ _)]
    exact ih (fun w2 hw2 => h w2 (List.mem_cons_of_mem _ hw2))

/-- C1: for every call to `get_excluded_shipping_methods_or_fetch` where
the cache holds an entry under the cache key whose stored payload equals
the freshly computed payload, zero webhooks are invoked, zero cache
writes are performed, and the returned map equals the stored raw results
parsed and grouped by id. -/
theorem claim_c1_cache_hit (fgi : Codec) (trigger : Trigger)
    (cache_get : CacheGet) (webhooks : List Webhook)
    (event_type payload cache_key : String) (raw : List RawExclusion)
    (hcache : cache_get cache_key = some (payload, raw)) :
    (get_excluded_shipping_methods_or_fetch fgi trigger cache_get webhooks
        event_type payload cache_key).invocations = [] ∧
    (get_excluded_shipping_methods_or_fetch fgi trigger cache_get webhooks
        event_type payload cache_key).writes = [] ∧
    (get_excluded_shipping_methods_or_fetch fgi trigger cache_get webhooks
        event_type payload cache_key).result =
      parse_excluded_shipping_methods raw ∧
    GroupedById (get_excluded_shipping_methods_or_fetch fgi trigger cache_get
        webhooks event_type payload cache_key).result := by
  unfold get_excluded_shipping_methods_or_fetch
  rw [hcache]
  simp only [if_pos rfl]
  exact ⟨rfl, rfl, rfl, groupedById_parse_excluded raw⟩

/-- C1 witness at a concrete cache hit. -/
theorem claim_c1_cache_hit_witness :
    (get_excluded_shipping_methods_or_fetch (fun _ => none)
        (fun _ _ _ _ => none)
        (fun k => if k = "K" then some ("P", [⟨"5", "too heavy"⟩]) else none)
        [⟨⟨1⟩⟩] "ev" "P" "K").invocations = [] ∧
    (get_excluded_shipping_methods_or_fetch (fun _ => none)
        (fun _ _ _ _ => none)
        (fun k => if k = "K" then some ("P", [⟨"5", "too heavy"⟩]) else none)
        [⟨⟨1⟩⟩] "ev" "P" "K").writes = [] ∧
    (get_excluded_shipping_methods_or_fetch (fun _ => none)
        (fun _ _ _ _ => none)
        (fun k => if k = "K" then some ("P", [⟨"5", "too heavy"⟩]) else none)
        [⟨⟨1⟩⟩] "ev" "P" "K").result =
      parse_excluded_shipping_methods [⟨"5", "too heavy"⟩] ∧
    GroupedById (get_excluded_shipping_methods_or_fetch (fun _ => none)
        (fun _ _ _ _ => none)
        (fun k => if k = "K" then some ("P", [⟨"5", "too heavy"⟩]) else none)
        [⟨⟨1⟩⟩] "ev" "P" "K").result :=
  claim_c1_cache_hit (fun _ => none) (fun _ _ _ _ => none)
    (fun k => if k = "K" then some ("P", [⟨"5", "too heavy"⟩]) else none)
    [⟨⟨1⟩⟩] "ev" "P" "K" [⟨"5", "too heavy"⟩] (by decide)

/-- C2: for every call to `get_excluded_shipping_methods_or_fetch` where
no cache entry exists under the cache key, or the stored payload differs
from the fresh one, every subscribed webhook is invoked exactly once, in
registry order, with the event type, the payload, its app and the fixed
timeout; a falsy response contributes nothing while later webhooks are
still invoked; the parsed entries of all present responses are
accumulated into one raw list; exactly one cache write stores
`(payload, rawList)` under the cache key with the fixed TTL; and the
returned map is that raw list grouped by id. -/
theorem claim_c2_cache_miss (fgi : Codec) (trigger : Trigger)
    (cache_get : CacheGet) (webhooks : List Webhook)
    (event_type payload cache_key : String)
    (hmiss : ∀ cached_payload raw,
      cache_get cache_key = some (cached_payload, raw) →
        payload ≠ cached_payload) :
    (get_excluded_shipping_methods_or_fetch fgi trigger cache_get webhooks
        event_type payload cache_key).invocations =
      webhooks.map (fun w =>
        ⟨event_type, payload, w.app, EXCLUDED_SHIPPING_REQUEST_TIMEOUT⟩) ∧
    (get_excluded_shipping_methods_or_fetch fgi trigger cache_get webhooks
        event_type payload cache_key).writes =
      [⟨cache_key, payload,
        webhooks.flatMap (webhook_contrib fgi trigger event_type payload),
        CACHE_EXCLUDED_SHIPPING_TIME⟩] ∧
    (get_excluded_shipping_methods_or_fetch fgi trigger cache_get webhooks
        event_type payload cache_key).result =
      parse_excluded_shipping_methods
        (webhooks.flatMap (webhook_contrib fgi trigger event_type payload)) ∧
    GroupedById (get_excluded_shipping_methods_or_fetch fgi trigger cache_get
        webhooks event_type payload cache_key).result := by
  rw [fetch_eq_of_miss fgi trigger cache_get webhooks event_type payload
    cache_key hmiss]
  rw [fetch_from_webhooks_eq]
  exact ⟨rfl, rfl, rfl, groupedById_parse_excluded _⟩

/-- C2 witness: two webhooks, an empty cache, the first response present
and the second falsy. -/
theorem claim_c2_cache_miss_witness :
    (get_excluded_shipping_methods_or_fetch
        (fun s => if s = "G" then some ("ShippingMethod", "5") else none)
        (fun _ _ app _ =>
          if app.pk = 1 then some ⟨[⟨some "G", some "w"⟩]⟩ else none)
        (fun _ => none) [⟨⟨1⟩⟩, ⟨⟨2⟩⟩] "ev" "P" "K").invocations =
      [⟨"ev", "P", ⟨1⟩, EXCLUDED_SHIPPING_REQUEST_TIMEOUT⟩,
       ⟨"ev", "P", ⟨2⟩, EXCLUDED_SHIPPING_REQUEST_TIMEOUT⟩] ∧
    (get_excluded_shipping_methods_or_fetch
        (fun s => if s = "G" then some ("ShippingMethod", "5") else none)
        (fun _ _ app _ =>
          if app.pk = 1 then some ⟨[⟨some "G", some "w"⟩]⟩ else none)
        (fun _ => none) [⟨⟨1⟩⟩, ⟨⟨2⟩⟩] "ev" "P" "K").writes =
      [⟨"K", "P", [⟨"5", "w"⟩], CACHE_EXCLUDED_SHIPPING_TIME⟩] ∧
    (get_excluded_shipping_methods_or_fetch
        (fun s => if s = "G" then some ("ShippingMethod", "5") else none)
        (fun _ _ app _ =>
          if app.pk = 1 then some ⟨[⟨some "G", some "w"⟩]⟩ else none)
        (fun _ => none) [⟨⟨1⟩⟩, ⟨⟨2⟩⟩] "ev" "P" "K").result =
      [("5", [⟨"5", some "w"⟩])] := by
  have h := claim_c2_cache_miss
    (fun s => if s = "G" then some ("ShippingMethod", "5") else none)
    (fun _ _ app _ =>
      if app.pk = 1 then some ⟨[⟨some "G", some "w"⟩]⟩ else none)
    (fun _ => none) [⟨⟨1⟩⟩, ⟨⟨2⟩⟩] "ev" "P" "K"
    (fun cp raw hc => Option.noConfusion hc)
  refine ⟨h.1.trans (by decide), h.2.1.trans (by decide), h.2.2.1.trans (by decide)⟩

/-- C3: for every event type with zero subscribed webhooks,
`get_excluded_shipping_data` never evaluates `payload_fun` (its output
does not depend on it), performs no webhook call and no cache write, and
returns the merge of an empty fetched map with `previous_value`. -/
theorem claim_c3_no_subscribers (fgi : Codec) (trigger : Trigger)
    (cache_get : CacheGet) (registry : String → List Webhook)
    (event_type : String) (previous_value : List ExcludedShippingMethod)
    (payload_fun : Unit → String) (cache_key : String)
    (hreg : registry event_type = []) :
    (get_excluded_shipping_data fgi trigger cache_get registry event_type
        previous_value payload_fun cache_key).payload_evaluated = false ∧
    (get_excluded_shipping_data fgi trigger cache_get registry event_type
        previous_value payload_fun cache_key).invocations = [] ∧
    (get_excluded_shipping_data fgi trigger cache_get registry event_type
        previous_value payload_fun cache_key).writes = [] ∧
    (get_excluded_shipping_data fgi trigger cache_get registry event_type
        previous_value payload_fun cache_key).result =
      merge_exclusions [] previous_value ∧
    (∀ g : Unit → String,
      get_excluded_shipping_data fgi trigger cache_get registry event_type
          previous_value g cache_key =
        get_excluded_shipping_data fgi trigger cache_get registry event_type
          previous_value payload_fun cache_key) := by
  unfold get_excluded_shipping_data
  rw [hreg]
  exact ⟨rfl, rfl, rfl, rfl, fun g => rfl⟩

/-- C3 witness at an empty registry. -/
theorem claim_c3_no_subscribers_witness :
    (get_excluded_shipping_data (fun _ => none) (fun _ _ _ _ => none)
        (fun _ => none) (fun _ => []) "ev" [⟨"A", some "y"⟩]
        (fun _ => "P") "K").payload_evaluated = false ∧
    (get_excluded_shipping_data (fun _ => none) (fun _ _ _ _ => none)
        (fun _ => none) (fun _ => []) "ev" [⟨"A", some "y"⟩]
        (fun _ => "P") "K").invocations = [] ∧
    (get_excluded_shipping_data (fun _ => none) (fun _ _ _ _ => none)
        (fun _ => none) (fun _ => []) "ev" [⟨"A", some "y"⟩]
        (fun _ => "P") "K").writes = [] ∧
    (get_excluded_shipping_data (fun _ => none) (fun _ _ _ _ => none)
        (fun _ => none) (fun _ => []) "ev" [⟨"A", some "y"⟩]
        (fun _ => "P") "K").result =
      merge_exclusions [] [⟨"A", some "y"⟩] ∧
    (∀ g : Unit → String,
      get_excluded_shipping_data (fun _ => none) (fun _ _ _ _ => none)
          (fun _ => none) (fun _ => []) "ev" [⟨"A", some "y"⟩] g "K" =
        get_excluded_shipping_data (fun _ => none) (fun _ _ _ _ => none)
          (fun _ => none) (fun _ => []) "ev" [⟨"A", some "y"⟩]
          (fun _ => "P") "K") :=
  claim_c3_no_subscribers (fun _ => none) (fun _ _ _ _ => none)
    (fun _ => none) (fun _ => []) "ev" [⟨"A", some "y"⟩]
    (fun _ => "P") "K" rfl

/-- C8: with subscribed webhooks and no usable cache entry, if every
webhook invocation returns a falsy response, `get_excluded_shipping_data`
still completes and its output equals the exclusions derived from
`previous_value` alone. -/
theorem claim_c8_all_falsy (fgi : Codec) (trigger : Trigger)
    (cache_get : CacheGet) (registry : String → List Webhook)
    (event_type : String) (previous_value : List ExcludedShippingMethod)
    (payload_fun : Unit → String) (cache_key : String)
    (hsub : registry event_type ≠ [])
    (hfalsy : ∀ w ∈ registry event_type,
      trigger event_type (payload_fun ()) w.app
        EXCLUDED_SHIPPING_REQUEST_TIMEOUT = none)
    (hmiss : ∀ cached_payload raw,
      cache_get cache_key = some (cached_payload, raw) →
        payload_fun () ≠ cached_payload) :
    (get_excluded_shipping_data fgi trigger cache_get registry event_type
        previous_value payload_fun cache_key).result =
      merge_exclusions [] previous_value := by
  simp only [get_excluded_shipping_data]
  rw [if_neg (by simpa using hsub)]
  rw [fetch_eq_of_miss fgi trigger cache_get (registry event_type) event_type
    (payload_fun ()) cache_key hmiss]
  rw [fetch_from_webhooks_eq]
  rw [flatMap_contrib_nil fgi trigger event_type (payload_fun ())
    (registry event_type) hfalsy]
  rfl

/-- C8 witness: one subscribed webhook whose response is falsy. -/
theorem claim_c8_all_falsy_witness :
    (get_excluded_shipping_data (fun _ => none) (fun _ _ _ _ => none)
        (fun _ => none) (fun _ => [⟨⟨1⟩⟩]) "ev" [⟨"A", some "y"⟩]
        (fun _ => "P") "K").result =
      merge_exclusions [] [⟨"A", some "y"⟩] :=
  claim_c8_all_falsy (fun _ => none) (fun _ _ _ _ => none) (fun _ => none)
    (fun _ => [⟨⟨1⟩⟩]) "ev" [⟨"A", some "y"⟩] (fun _ => "P") "K"
    (by decide) (fun w _ => rfl) (fun cp raw hc => Option.noConfusion hc)

/-- C4: for every fetched map (whose keys are distinct, as the keys of
every fetcher output are) and every previous list, the merged output has
exactly one entry per distinct id, ordered by first-seen order: the ids
of the fetched map first, in their order, then the ids introduced only
by the previous list, in input order. -/
theorem claim_c4_unique_ids (m : GroupedMap)
    (prev : List ExcludedShippingMethod) (h : (keysOf m).Nodup) :
    ((merge_exclusions m prev).map ExcludedShippingMethod.id).Nodup ∧
    (merge_exclusions m prev).map ExcludedShippingMethod.id =
      keysOf m ++ firstKeys (keysOf m) (prev.map ExcludedShippingMethod.id) ∧
    (∀ raw : List RawExclusion,
      (keysOf (parse_excluded_shipping_methods raw)).Nodup) := by
  have hkeys : (merge_exclusions m prev).map ExcludedShippingMethod.id =
      keysOf (appendPrevious m prev) := by
    rw [merge_exclusions, List.map_map]
    rfl
  refine ⟨?_, ?_, nodup_keysOf_parse_excluded⟩
  · rw [hkeys]
    exact nodup_keysOf_appendPrevious prev m h
  · rw [hkeys, keysOf_appendPrevious]

/-- C4 witness: fetched ids A then B; previous list introduces C and
repeats A; output ids are A, B, C with no duplicate. -/
theorem claim_c4_unique_ids_witness :
    ((merge_exclusions [("A", [⟨"A", some "x"⟩]), ("B", [⟨"B", none⟩])]
        [⟨"C", some "z"⟩, ⟨"A", some "y"⟩]).map
      ExcludedShippingMethod.id).Nodup ∧
    (merge_exclusions [("A", [⟨"A", some "x"⟩]), ("B", [⟨"B", none⟩])]
        [⟨"C", some "z"⟩, ⟨"A", some "y"⟩]).map ExcludedShippingMethod.id =
      keysOf [("A", [⟨"A", some "x"⟩]), ("B", [⟨"B", none⟩])] ++
        firstKeys (keysOf [("A", [⟨"A", some "x"⟩]), ("B", [⟨"B", none⟩])])
          ([⟨"C", some "z"⟩, ⟨"A", some "y"⟩].map
            ExcludedShippingMethod.id) ∧
    (∀ raw : List RawExclusion,
      (keysOf (parse_excluded_shipping_methods raw)).Nodup) :=
  claim_c4_unique_ids [("A", [⟨"A", some "x"⟩]), ("B", [⟨"B", none⟩])]
    [⟨"C", some "z"⟩, ⟨"A", some "y"⟩] (by decide)

/-- C5: in the merged output, the reason of each entry is the join of
the bucket of its id — the fetched contributions first, then the
previous-list contributions in input order — where joining space-joins
the non-empty reasons and yields `none` when there is none. -/
theorem claim_c5_reasons (m : GroupedMap) (prev : List ExcludedShippingMethod)
    (h : (keysOf m).Nodup) :
    ∀ entry ∈ merge_exclusions m prev,
      entry.reason = joinReasons
        (bucketOf m entry.id ++ prev.filter (fun x => x.id = entry.id)) := by
  intro entry hentry
  rw [merge_exclusions] at hentry
  obtain ⟨kv, hkv, hmap⟩ := List.mem_map.1 hentry
  obtain ⟨k, b⟩ := kv
  have hid : entry.id = k := by rw [← hmap]
  have hreason : entry.reason = joinReasons b := by rw [← hmap]
  have hbucket : bucketOf (appendPrevious m prev) k = b :=
    bucketOf_of_mem_nodup _ _ _ hkv (nodup_keysOf_appendPrevious prev m h)
  rw [hreason, ← hbucket, bucketOf_appendPrevious, hid]

/-- C5 witness: merging fetched `{A: [{A, x}]}` with previous
`[{A, y}]` yields exactly one entry `{A, "x y"}` whose reason is the
joined bucket. -/
theorem claim_c5_reasons_witness :
    merge_exclusions [("A", [⟨"A", some "x"⟩])] [⟨"A", some "y"⟩] =
      [⟨"A", some "x y"⟩] ∧
    (⟨"A", some "x y"⟩ : ExcludedShippingMethod).reason =
      joinReasons (bucketOf [("A", [⟨"A", some "x"⟩])] "A" ++
        [⟨"A", some "y"⟩].filter
          (fun x => ExcludedShippingMethod.id x = "A")) := by
  refine ⟨by decide, ?_⟩
  have h := claim_c5_reasons [("A", [⟨"A", some "x"⟩])] [⟨"A", some "y"⟩]
    (by decide) ⟨"A", some "x y"⟩ (by decide)
  simpa using h

/-- C6: for every response entry whose id decodes via the codec, an
`app` type tag keeps the original token verbatim as the id, a
`ShippingMethod` type tag keeps only the decoded raw-id portion, and the
reason defaults to the empty string when absent. -/
theorem claim_c6_entry_ids (fgi : Codec) (token tag decoded : String)
    (r : Option String) (hdec : fgi token = some (tag, decoded)) :
    (tag = "app" →
      parse_exclusion_entry fgi ⟨some token, r⟩ =
        some ⟨token, r.getD ""⟩) ∧
    (tag = "ShippingMethod" →
      parse_exclusion_entry fgi ⟨some token, r⟩ =
        some ⟨decoded, r.getD ""⟩) ∧
    ((tag = "app" ∨ tag = "ShippingMethod") →
      ∃ out, parse_exclusion_entry fgi ⟨some token, none⟩ = some out ∧
        out.reason = "") := by
  refine ⟨?_, ?_, ?_⟩
  · intro htag
    subst htag
    simp [parse_exclusion_entry, hdec]
  · intro htag
    subst htag
    simp [parse_exclusion_entry, hdec]
  · rintro (htag | htag)
    · subst htag
      exact ⟨⟨token, ""⟩, by simp [parse_exclusion_entry, hdec], rfl⟩
    · subst htag
      exact ⟨⟨decoded, ""⟩, by simp [parse_exclusion_entry, hdec], rfl⟩

/-- C6 witness: a `ShippingMethod` entry with raw id `42` parses to id
`42`; an `app` entry with token `APP_9` parses to id `APP_9` unchanged;
absent reasons become the empty string. -/
theorem claim_c6_entry_ids_witness :
    parse_exclusion_entry
        (fun s => if s = "APP_9" then some ("app", "X")
          else if s = "SM42" then some ("ShippingMethod", "42") else none)
        ⟨some "APP_9", none⟩ = some ⟨"APP_9", ""⟩ ∧
    parse_exclusion_entry
        (fun s => if s = "APP_9" then some ("app", "X")
          else if s = "SM42" then some ("ShippingMethod", "42") else none)
        ⟨some "SM42", none⟩ = some ⟨"42", ""⟩ := by
  constructor
  · have h := (claim_c6_entry_ids
      (fun s => if s = "APP_9" then some ("app", "X")
        else if s = "SM42" then some ("ShippingMethod", "42") else none)
      "APP_9" "app" "X" none (by decide)).1 rfl
    simpa using h
  · have h := (claim_c6_entry_ids
      (fun s => if s = "APP_9" then some ("app", "X")
        else if s = "SM42" then some ("ShippingMethod", "42") else none)
      "SM42" "ShippingMethod" "42" none (by decide)).2.1 rfl
    simpa using h

/-- C7: `get_excluded_shipping_methods_from_response` drops, without
raising, any entry whose type tag is neither `app` nor `ShippingMethod`
and any entry whose id is missing or fails to decode; the remaining
sibling entries of the batch are parsed as if the dropped entry were
absent. -/
theorem claim_c7_dropping (fgi : Codec) (e : MethodData)
    (l1 l2 : List MethodData) :
    (e.id = none → parse_exclusion_entry fgi e = none) ∧
    (∀ token, e.id = some token → fgi token = none →
      parse_exclusion_entry fgi e = none) ∧
    (∀ token tag decoded, e.id = some token →
      fgi token = some (tag, decoded) → tag ≠ "app" →
      tag ≠ "ShippingMethod" → parse_exclusion_entry fgi e = none) ∧
    (parse_exclusion_entry fgi e = none →
      get_excluded_shipping_methods_from_response fgi ⟨l1 ++ e :: l2⟩ =
        get_excluded_shipping_methods_from_response fgi ⟨l1 ++ l2⟩) := by
  refine ⟨?_, ?_, ?_, ?_⟩
  · intro hid
    simp [parse_exclusion_entry, hid]
  · intro token hid hfgi
    simp [parse_exclusion_entry, hid, hfgi]
  · intro token tag decoded hid hfgi htag1 htag2
    simp [parse_exclusion_entry, hid, hfgi, htag1, htag2]
  · intro hnone
    rw [get_excluded_shipping_methods_from_response,
      get_excluded_shipping_methods_from_response]
    rw [List.filterMap_append, List.filterMap_append]
    rw [List.filterMap_cons_none hnone]

/-- C7 witness: a batch with one entry missing the id field and one
well-formed entry returns exactly the well-formed entry. -/
theorem claim_c7_dropping_witness :
    get_excluded_shipping_methods_from_response
        (fun s => if s = "G" then some ("ShippingMethod", "5") else none)
        ⟨[⟨none, some "r"⟩, ⟨some "G", some "w"⟩]⟩ = [⟨"5", "w"⟩] := by
  have h := (claim_c7_dropping
    (fun s => if s = "G" then some ("ShippingMethod", "5") else none)
    ⟨none, some "r"⟩ [] [⟨some "G", some "w"⟩]).2.2.2 (by decide)
  exact h.trans (by decide)

theorem filterMap_map_some (f : MethodData → Option RawExclusion)
    (l : List MethodData) :
    (l.filterMap f).map Option.some = (l.map f).filter (fun o => o.isSome) := by
  induction l with
  | nil => rfl
  | cons a rest ih =>
    cases hfa : f a with
    | none => simp [List.filterMap_cons, hfa, ih]
    | some out => simp [List.filterMap_cons, hfa, ih]

/-- C9: the output of `get_excluded_shipping_methods_from_response` is
the order-preserving subsequence of well-formed entries: mapping `some`
over it gives exactly the present parse results in input order, its
length never exceeds the input length, and the reason of every returned
record is a string — the reason of the entry, or the empty string when
that was absent. -/
theorem claim_c9_subsequence (fgi : Codec)
    (response_data : ExclusionResponse) :
    (get_excluded_shipping_methods_from_response fgi response_data).map
        Option.some =
      (response_data.excluded_methods.map (parse_exclusion_entry fgi)).filter
        (fun o => o.isSome) ∧
    (get_excluded_shipping_methods_from_response fgi response_data).length ≤
      response_data.excluded_methods.length ∧
    (∀ e ∈ response_data.excluded_methods, ∀ out,
      parse_exclusion_entry fgi e = some out →
        out.reason = e.reason.getD "") := by
  refine ⟨filterMap_map_some _ _, List.length_filterMap_le _ _, ?_⟩
  intro e he out hout
  unfold parse_exclusion_entry at hout
  split at hout
  · exact Option.noConfusion hout
  · split at hout
    · exact Option.noConfusion hout
    · split at hout
      · injection hout with h
        rw [← h]
      · split at hout
        · injection hout with h
          rw [← h]
        · exact Option.noConfusion hout

/-- C9 witness: a concrete batch with one well-formed and one malformed
entry satisfies the subsequence equation, the length bound, and the
reason default. -/
theorem claim_c9_subsequence_witness :
    (get_excluded_shipping_methods_from_response
        (fun s => if s = "G" then some ("ShippingMethod", "5") else none)
        ⟨[⟨some "G", none⟩, ⟨none, some "r"⟩]⟩).map Option.some =
      ([⟨some "G", none⟩, ⟨none, some "r"⟩].map
        (parse_exclusion_entry
          (fun s => if s = "G" then some ("ShippingMethod", "5") else none))).filter
        (fun o => o.isSome) ∧
    (get_excluded_shipping_methods_from_response
        (fun s => if s = "G" then some ("ShippingMethod", "5") else none)
        ⟨[⟨some "G", none⟩, ⟨none, some "r"⟩]⟩).length ≤ 2 ∧
    (⟨"5", ""⟩ : RawExclusion).reason =
      Option.getD (Option.none : Option String) "" := by
  have h := claim_c9_subsequence
    (fun s => if s = "G" then some ("ShippingMethod", "5") else none)
    ⟨[⟨some "G", none⟩, ⟨none, some "r"⟩]⟩
  refine ⟨h.1, h.2.1, ?_⟩
  exact h.2.2 ⟨some "G", none⟩ (by decide) ⟨"5", ""⟩ (by decide)

/-- C10 counterexample: a record whose `id` field is missing does NOT
abort the batch — `.get("id")` yields Python `None`, which the f-string
of `to_shipping_app_id` formats verbatim — refuting the claim that a
record with any missing field aborts the whole batch. -/
theorem claim_c10_counterexample :
    parse_list_shipping_methods_response
        (fun s => if s = "10" then some (10 : Rat) else none)
        [⟨none, some "n", some "10", some "USD", none⟩] ⟨1⟩ =
      Except.ok [⟨b64encode "app:1:None", some "n", ⟨10, some "USD"⟩,
        none⟩] := by
  rfl

/-- C10 (amended): `parse_list_shipping_methods_response` returns
exactly one `ShippingMethodData` per input record, in input order, with
id equal to the base64 encoding of `app:<app pk>:<record id>` produced
by `to_shipping_app_id`, and no record is ever dropped; there is no
defensive handling, so a record whose `amount` is missing or rejected by
the `Decimal` constructor aborts the whole batch — but a record whose
`id` field is missing does not abort (the missing id is formatted as the
literal `None` and encoded). -/
theorem claim_c10_amended (dec : String → Option Rat) (app : App) :
    (∀ records : List ShippingMethodRecord,
      (∀ r ∈ records, (Option.bind r.amount dec).isSome) →
      parse_list_shipping_methods_response dec records app =
        Except.ok (records.map (fun r =>
          ⟨to_shipping_app_id app (pyStr r.id), r.name,
           ⟨(Option.bind r.amount dec).getD 0, r.currency⟩,
           r.maximum_delivery_days⟩))) ∧
    (∀ records : List ShippingMethodRecord,
      (∃ r ∈ records, Option.bind r.amount dec = none) →
      parse_list_shipping_methods_response dec records app =
        Except.error ()) := by
  constructor
  · intro records hall
    induction records with
    | nil => rfl
    | cons r rest ih =>
      have hr := hall r (List.mem_cons_self _ _)
      cases ha : r.amount with
      | none =>
        exfalso
        rw [ha, Option.none_bind] at hr
        simp at hr
      | some a =>
        rw [ha, Option.some_bind] at hr
        cases hq : dec a with
        | none =>
          exfalso
          rw [hq] at hr
          simp at hr
        | some q =>
          have hmk : mkMoney dec r.amount r.currency =
              Except.ok ⟨q, r.currency⟩ := by
            rw [ha]
            simp [mkMoney, hq]
          simp only [parse_list_shipping_methods_response, hmk]
          rw [ih (fun r2 hr2 => hall r2 (List.mem_cons_of_mem _ hr2))]
          simp [ha, hq]
  · intro records hex
    induction records with
    | nil =>
      obtain ⟨r, hr, _⟩ := hex
      simp at hr
    | cons r rest ih =>
      obtain ⟨r2, hr2, hnone⟩ := hex
      rcases List.mem_cons.1 hr2 with heq | hmem
      · subst heq
        have hmk : mkMoney dec r2.amount r2.currency = Except.error () := by
          cases hra : r2.amount with
          | none => rfl
          | some a =>
            rw [hra, Option.some_bind] at hnone
            simp [mkMoney, hnone]
        simp [parse_list_shipping_methods_response, hmk]
      · cases hm : mkMoney dec r.amount r.currency with
        | error e =>
          cases e
          simp [parse_list_shipping_methods_response, hm]
        | ok price =>
          simp [parse_list_shipping_methods_response, hm,
            ih ⟨r2, hmem, hnone⟩]

/-- C10 witness: a well-formed record parses to the encoded id in
order; a record with a missing amount aborts the batch. -/
theorem claim_c10_amended_witness :
    parse_list_shipping_methods_response
        (fun s => if s = "10" then some (10 : Rat) else none)
        [⟨some "7", some "n", some "10", some "USD", some "3"⟩] ⟨1⟩ =
      Except.ok [⟨b64encode "app:1:7", some "n", ⟨10, some "USD"⟩,
        some "3"⟩] ∧
    parse_list_shipping_methods_response
        (fun s => if s = "10" then some (10 : Rat) else none)
        [⟨some "7", some "n", none, some "USD", some "3"⟩] ⟨1⟩ =
      Except.error () := by
  constructor
  · have h := (claim_c10_amended
      (fun s => if s = "10" then some (10 : Rat) else none) ⟨1⟩).1
      [⟨some "7", some "n", some "10", some "USD", some "3"⟩]
      (by decide)
    exact h.trans (by rfl)
  · exact (claim_c10_amended
      (fun s => if s = "10" then some (10 : Rat) else none) ⟨1⟩).2
      [⟨some "7", some "n", none, some "USD", some "3"⟩]
      ⟨⟨some "7", some "n", none, some "USD", some "3"⟩,
        List.mem_singleton.2 rfl, rfl⟩

end Saleor
